import Mathlib

/-!
Verification development for the financial-converter repository.

The definitions below are a shallow embedding of the decision-making core of
`src/parser_core.py` and of `FinancialExcelGenerator._parse_number` from
`src/excel_generator.py`.  Strings are modelled as `List Char`; Python's
`re.search` is modelled, for the fixed pattern set used by the code (literal
segments joined by `.*`, where `.` does not match a newline), by a
leftmost-greedy ordered-substring matcher applied to each newline-delimited
chunk of the text.  Fallible Python code (KeyError, IndexError) is modelled
with `Except Unit`; `None`-returning error paths are modelled with `Option`.
-/

namespace FinConv

instance {ε α : Type} [DecidableEq ε] [DecidableEq α] : DecidableEq (Except ε α)
  | Except.error a, Except.error b =>
    if h : a = b then isTrue (by rw [h]) else isFalse (by intro hh; cases hh; exact h rfl)
  | Except.error _, Except.ok _ => isFalse (by intro h; cases h)
  | Except.ok _, Except.error _ => isFalse (by intro h; cases h)
  | Except.ok a, Except.ok b =>
    if h : a = b then isTrue (by rw [h]) else isFalse (by intro hh; cases hh; exact h rfl)

abbrev Str := List Char

def str (s : String) : Str := s.toList

/-- Python `str.lower` (ASCII fragment, which is all the code's patterns use). -/
def lowerStr (s : Str) : Str := s.map Char.toLower

/-- Python regex `\w` (ASCII fragment): letters, digits and underscore. -/
def isWordChar (c : Char) : Bool := c.isAlphanum || c = '_'

/-- Python whitespace (`\s`, `str.strip`): space, tab, newline, CR, VT, FF. -/
def isSpaceChar (c : Char) : Bool :=
  c = ' ' || c = '\t' || c = '\n' || c = '\x0d' || c = '\x0b' || c = '\x0c'

/-- Does `s` start with `p`? -/
def startsWith : Str → Str → Bool
  | _, [] => true
  | [], _ :: _ => false
  | c :: s, d :: p => c = d && startsWith s p

/-- The suffix of `s` following the first (leftmost) occurrence of `pat`,
or `none` when `pat` does not occur in `s`. -/
def dropAfterFirst (pat : Str) : Str → Option Str
  | [] => if startsWith [] pat then some [] else none
  | c :: s => if startsWith (c :: s) pat then some ((c :: s).drop pat.length)
              else dropAfterFirst pat s

/-- Python's `pat in s` substring test. -/
def containsSub (pat s : Str) : Bool := (dropAfterFirst pat s).isSome

/-- Split on newline characters (the one character Python's `.` never matches). -/
def splitOnNl : Str → List Str
  | [] => [[]]
  | c :: s =>
    if c = '\n' then [] :: splitOnNl s
    else match splitOnNl s with
      | [] => [[c]]
      | line :: rest => (c :: line) :: rest

/-- Ordered occurrence of the literal segments of a `lit₀.*lit₁.*…` pattern
inside one newline-free chunk, matched leftmost-greedily (which is complete
for this pattern class). -/
def seqMatch : List Str → Str → Bool
  | [], _ => true
  | p :: ps, s =>
    match dropAfterFirst p s with
    | none => false
    | some rest => seqMatch ps rest

/-- `re.search` for a pattern consisting of literal segments joined by `.*`:
some newline-delimited chunk of the text contains the segments in order. -/
def reSearch (segs : List Str) (s : Str) : Bool :=
  (splitOnNl s).any (fun line => seqMatch segs line)

/-- `TARGET_HEADINGS_WITH_STANDALONE` from `src/parser_core.py`, each regex
split at its `.*` separators into its literal segments. -/
def TARGET_HEADINGS_WITH_STANDALONE : List (List Str) :=
  [ [str "standalone", str "financial", str "result", str "30", str "june", str "2025"],
    [str "statement of", str "standalone", str "30", str "june", str "2025"] ]

/-- `TARGET_HEADINGS_GENERIC` from `src/parser_core.py`, each regex split at
its `.*` separators into its literal segments (the last pattern contains the
OCR-garbled Cyrillic look-alike characters present in the source). -/
def TARGET_HEADINGS_GENERIC : List (List Str) :=
  [ [str "statement of unaudited", str "financial", str "result", str "30", str "june", str "2025"],
    [str "unaudited", str "financial", str "result", str "30", str "june", str "2025"],
    [str "financial", str "result", str "quarter", str "30", str "june", str "2025"],
    [str "sfatement of unaudiтed", str "financial", str "re5ulтs",
     str "for тне quarter ended", str "]une", str "30,", str "2025"] ]

def matchesAny (pats : List (List Str)) (t : Str) : Bool :=
  pats.any (fun segs => reSearch segs t)

/-- One iteration of the page loop of `find_target_page`: the page is returned
when an explicit-standalone pattern matches, or, failing that, when the page
does not contain "consolidated" and a generic pattern matches. -/
def pageHit (p : Str) : Bool :=
  let t := lowerStr p
  matchesAny TARGET_HEADINGS_WITH_STANDALONE t ||
    (!containsSub (str "consolidated") t && matchesAny TARGET_HEADINGS_GENERIC t)

def findTargetFrom : Nat → List Str → Option Nat
  | _, [] => none
  | i, p :: ps => if pageHit p then some i else findTargetFrom (i + 1) ps

/-- `find_target_page` from `src/parser_core.py`: scan the pages in order and
return the index of the first page accepted by the heading rules, `none`
otherwise (PDF reading abstracted: the extracted page texts are the input). -/
def find_target_page (pages : List Str) : Option Nat :=
  findTargetFrom 0 pages

/-- A `<tr>` element of the extracted HTML table: `text` is its flattened
`get_text(separator=' ', strip=True)` rendering (not yet lower-cased) and
`cells` the stripped texts of its `td`/`th` children, in document order. -/
structure HtmlRow where
  text : Str
  cells : List Str
deriving DecidableEq

/-- The normalization `re.sub(r'[^\w\s]', '', s)` performed by
`_find_matching_row`: characters that are neither word characters nor
whitespace are removed (whitespace is kept). -/
def normalizeKeepWs (s : Str) : Str :=
  s.filter (fun c => isWordChar c || isSpaceChar c)

/-- The per-label test of `_find_matching_row`: the normalized label occurs in
the normalized (already lower-cased) row text, or the normalized row text
starts with the first 15 characters of the normalized label. -/
def labelMatchesRow (rowTextLower : Str) (label : Str) : Bool :=
  let rn := normalizeKeepWs rowTextLower
  let ln := normalizeKeepWs (lowerStr label)
  containsSub ln rn || startsWith rn (ln.take 15)

def findMatchingFrom (labels : List Str) : Nat → List HtmlRow → Option (Nat × HtmlRow)
  | _, [] => none
  | i, r :: rs =>
    if labels.any (fun l => labelMatchesRow (lowerStr r.text) l) then some (i, r)
    else findMatchingFrom labels (i + 1) rs

/-- `_find_matching_row` from `src/parser_core.py`: scan rows in document
order and return the first row some label matches (labels tried in order
within each row); `none` models the `(-1, None)` not-found sentinel. -/
def find_matching_row (rows : List HtmlRow) (labels : List Str) : Option (Nat × HtmlRow) :=
  findMatchingFrom labels 0 rows

/-- Modelled from the spec's words for claim C6 only: a normalization that
"lower-cases and strips non-word characters" — so whitespace, not being a word
character, is stripped as well.  Compare `normalizeKeepWs`, the normalization
the code actually performs. -/
def specNormalize (s : Str) : Str := (lowerStr s).filter isWordChar

/-- The claim-C6 row test under `specNormalize` (spec wording), for comparison
with `labelMatchesRow` (code behaviour). -/
def specLabelMatchesRow (rowText : Str) (label : Str) : Bool :=
  let rn := specNormalize rowText
  let ln := specNormalize label
  containsSub ln rn || startsWith rn (ln.take 15)

/- ---------------------------------------------------------------------
Configuration model and `parse_html_table_to_json`
--------------------------------------------------------------------- -/

/-- One entry of a company's `financial_data` list in `config.json`.
`labels = none` models an item JSON object with no `"labels"` key at all
(whose access `item_config["labels"]` raises `KeyError`); `tr_number` is
`item_config.get("tr_number", 0)`; `column_layout` is the optional per-field
override `item_config.get("column_layout", None)`. -/
structure ItemConfig where
  key : Str
  labels : Option (List Str)
  tr_number : Nat
  column_layout : Option Str
deriving DecidableEq

/-- A named column layout: insertion-ordered dict entries mapping a period key
(or the reserved key `"label"`) to a 1-based column ordinal. -/
abbrev ColumnLayout := List (Str × Nat)

/-- A company entry of the configuration: `column_layout` is the optional
`"column_layout"` key (`.get("column_layout", "standard")` in the code) and
`financial_data` the ordered item list. -/
structure CompanyConfig where
  column_layout : Option Str
  financial_data : List ItemConfig
deriving DecidableEq

/-- The configuration dictionary: the `"column_layouts"` mapping plus the
per-company entries. -/
structure Config where
  column_layouts : List (Str × ColumnLayout)
  companies : List (Str × CompanyConfig)
deriving DecidableEq

/-- Python dict lookup on an association list (keys unique in a dict). -/
def dictGet {α : Type} : List (Str × α) → Str → Option α
  | [], _ => none
  | (k, v) :: rest, key => if k = key then some v else dictGet rest key

/-- The `company_mapping` dict of `parse_html_table_to_json`. -/
def company_mapping : List (Str × Str) :=
  [ (str "BRITANNIA", str "britannia"), (str "COLGATE", str "colgate"),
    (str "DABUR", str "dabur"), (str "HUL", str "hul"), (str "ITC", str "itc"),
    (str "NESTLE", str "nestle"), (str "P&G", str "pg") ]

/-- Which of the two row-resolution strategies found a row (bookkeeping for
the `matched_rows_count` / `fuzzy_matched_count` counters of the source). -/
inductive Strategy where
  | direct
  | fuzzy
deriving DecidableEq

/-- The per-item row resolution of `parse_html_table_to_json`: the direct
`tr_number` strategy when `0 < tr_number ≤ len(rows)` (1-based indexing),
otherwise — only if fuzzy matching is enabled and the label list nonempty —
the fuzzy fallback `_find_matching_row`. -/
def resolveRow (rows : List HtmlRow) (trNumber : Nat) (labels : List Str)
    (useFuzzy : Bool) : Option (HtmlRow × Strategy) :=
  if h : 0 < trNumber ∧ trNumber ≤ rows.length then
    some (rows.get ⟨trNumber - 1, by omega⟩, Strategy.direct)
  else if useFuzzy && !labels.isEmpty then
    match find_matching_row rows labels with
    | some (_, r) => some (r, Strategy.fuzzy)
    | none => none
  else none

/-- Python list indexing `l[i]` including negative indices; out-of-range
raises `IndexError`, modelled by `Except.error`. -/
def pyGet (l : List Str) (i : Int) : Except Unit Str :=
  let j : Int := if i < 0 then i + l.length else i
  if h : 0 ≤ j ∧ j.toNat < l.length then Except.ok (l.get ⟨j.toNat, h.2⟩)
  else Except.error ()

/-- One extracted line item of the result's `financial_data` list. -/
structure FinItem where
  particular : Str
  key : Str
  values : List (Str × Str)
deriving DecidableEq

/-- The JSON result of `parse_html_table_to_json` (metadata added later by
`process_pdf_document` is outside this model). -/
structure Record where
  company_name : Str
  financial_data : List FinItem
  extraction_method : Str
deriving DecidableEq

/-- The mutable state of the item loop of `parse_html_table_to_json`:
accumulated `financial_data`, the `extraction_method` string (initialised to
`"tr_number"`, switched to `"mixed"` on any fuzzy hit) and the two counters. -/
structure LoopState where
  items : List FinItem
  method : Str
  direct_count : Nat
  fuzzy_count : Nat
deriving DecidableEq

def initState : LoopState := ⟨[], str "tr_number", 0, 0⟩

/-- `config["column_layouts"][name]`: a missing name raises `KeyError`. -/
def lookupLayoutE (cfg : Config) (name : Str) : Except Unit ColumnLayout :=
  match dictGet cfg.column_layouts name with
  | some l => Except.ok l
  | none => Except.error ()

/-- `company_config.get("column_layout", "standard")`. -/
def defaultLayoutName (companyCfg : CompanyConfig) : Str :=
  companyCfg.column_layout.getD (str "standard")

/-- The `particular` computation: the cell at the layout's label column
(`column_layout.get("label", 2)`, 1-based; the guard is `label_col_index <
len(cells)` on the Python int, so a non-positive ordinal indexes from the
end), falling back to the first label, then to the key, when empty. -/
def computeParticular (layout : ColumnLayout) (cells : List Str)
    (labels : List Str) (key : Str) : Except Unit Str :=
  let labelCol : Nat := (dictGet layout (str "label")).getD 2
  let idx : Int := (labelCol : Int) - 1
  match (if idx < (cells.length : Int) then pyGet cells idx else Except.ok []) with
  | Except.error e => Except.error e
  | Except.ok p => if p = [] then Except.ok (labels.headD key) else Except.ok p

/-- The `values` dict built over the layout entries: the reserved `"label"`
key is skipped; a column ordinal with `col_index <= len(cells)` reads
`cells[col_index - 1]` (Python indexing), otherwise the value is `""`. -/
def valuesLoop (cells : List Str) : ColumnLayout → Except Unit (List (Str × Str))
  | [] => Except.ok []
  | (k, ci) :: rest =>
    if k = str "label" then valuesLoop cells rest
    else if ci ≤ cells.length then
      match pyGet cells ((ci : Int) - 1) with
      | Except.error e => Except.error e
      | Except.ok v =>
        match valuesLoop cells rest with
        | Except.error e => Except.error e
        | Except.ok vs => Except.ok ((k, v) :: vs)
    else
      match valuesLoop cells rest with
      | Except.error e => Except.error e
      | Except.ok vs => Except.ok ((k, str "") :: vs)

/-- The body of the `for item_config in company_config["financial_data"]`
loop: access `item_config["labels"]` (raising when absent), look up the active
column layout (per-field override first — Python truthiness, so an empty
override string falls back to the default), resolve the row, and on success
extract `particular` and the period values. -/
def processItem (cfg : Config) (companyCfg : CompanyConfig) (rows : List HtmlRow)
    (useFuzzy : Bool) (st : LoopState) (item : ItemConfig) : Except Unit LoopState :=
  match item.labels with
  | none => Except.error ()
  | some labels =>
    match (match item.column_layout with
           | some ov =>
             if ov = [] then lookupLayoutE cfg (defaultLayoutName companyCfg)
             else lookupLayoutE cfg ov
           | none => lookupLayoutE cfg (defaultLayoutName companyCfg)) with
    | Except.error e => Except.error e
    | Except.ok layout =>
      match resolveRow rows item.tr_number labels useFuzzy with
      | none => Except.ok st
      | some (row, strat) =>
        let st' := match strat with
          | Strategy.direct => { st with direct_count := st.direct_count + 1 }
          | Strategy.fuzzy =>
            { st with fuzzy_count := st.fuzzy_count + 1, method := str "mixed" }
        match computeParticular layout row.cells labels item.key with
        | Except.error e => Except.error e
        | Except.ok particular =>
          match valuesLoop row.cells layout with
          | Except.error e => Except.error e
          | Except.ok vals =>
            Except.ok { st' with items := st'.items ++ [⟨particular, item.key, vals⟩] }

def processItems (cfg : Config) (companyCfg : CompanyConfig) (rows : List HtmlRow)
    (useFuzzy : Bool) : LoopState → List ItemConfig → Except Unit LoopState
  | st, [] => Except.ok st
  | st, it :: rest =>
    match processItem cfg companyCfg rows useFuzzy st it with
    | Except.error e => Except.error e
    | Except.ok st' => processItems cfg companyCfg rows useFuzzy st' rest

/-- `parse_html_table_to_json` from `src/parser_core.py` (file reading and
HTML parsing abstracted: `htmlTable = none` models "no `<table>` found").
`Except.ok none` models the logged-error `return None` paths, `Except.error`
an uncaught exception (e.g. `KeyError` on a missing layout name). -/
def parse_html_table_to_json (htmlTable : Option (List HtmlRow)) (companyName : Str)
    (config : Config) (useFuzzy : Bool) : Except Unit (Option Record) :=
  match dictGet company_mapping companyName with
  | none => Except.ok none
  | some configKey =>
    match dictGet config.companies configKey with
    | none => Except.ok none
    | some companyCfg =>
      match dictGet config.column_layouts (defaultLayoutName companyCfg) with
      | none => Except.error ()
      | some _ =>
        match htmlTable with
        | none => Except.ok none
        | some rows =>
          match processItems config companyCfg rows useFuzzy initState
              companyCfg.financial_data with
          | Except.error e => Except.error e
          | Except.ok st =>
            Except.ok (some ⟨companyName, st.items, st.method⟩)

/-- `load_config` from `src/parser_core.py`: it opens the file and returns
`json.load(f)` unchanged — no schema validation of any kind.  File I/O is
abstracted: the already-parsed JSON value is the argument, and the body is
the identity on it. -/
def load_config (raw : Config) : Except Str Config := Except.ok raw

/- ---------------------------------------------------------------------
Table scoring: `_select_best_table`
--------------------------------------------------------------------- -/

/-- A loadable table candidate as `_select_best_table` sees it: the number of
`<tr>` rows and the `get_text()` full-text rendering.  A candidate whose HTML
file is missing, has no `<table>`, or raises while being analysed is a `none`
in the candidate list. -/
structure TableData where
  nrows : Nat
  text : Str
deriving DecidableEq

/-- The fixed `financial_keywords` vocabulary of `_select_best_table`. -/
def financial_keywords : List Str :=
  [ str "revenue", str "income", str "expense", str "profit", str "loss",
    str "tax", str "total", str "net", str "eps", str "earnings per share",
    str "comprehensive", str "depreciation", str "amortisation", str "finance cost" ]

/-- Number of distinct vocabulary keywords occurring in the lower-cased table
text (each found keyword contributes `+10` once). -/
def kwCount (t : TableData) : Nat :=
  financial_keywords.countP (fun kw => containsSub kw (lowerStr t.text))

/-- Whether `re.search(r'\d+[,.]?\d*', table_text)` finds a numeric token,
which holds exactly when the text contains a digit. -/
def hasNumeric (t : TableData) : Bool :=
  (lowerStr t.text).any Char.isDigit

/-- The candidate score of `_select_best_table`, written as the source
accumulates it: `+2` per row capped at 50 rows, `+10` per keyword found,
`+20` if a numeric token occurs, `-30` if the table has fewer than 10 rows. -/
def tableScore (t : TableData) : Int :=
  let tl := lowerStr t.text
  let s : Int := (min t.nrows 50 : Nat) * 2
  let s := financial_keywords.foldl
    (fun acc kw => if containsSub kw tl then acc + 10 else acc) s
  let s := if tl.any Char.isDigit then s + 20 else s
  if t.nrows < 10 then s - 30 else s

/-- The candidate loop of `_select_best_table`: running best score
(initialised to `-1`) and best index (initialised to `0`); a failed candidate
is skipped; a strictly greater score replaces the incumbent. -/
def selectLoop : List (Option TableData) → Nat → Int → Nat → Nat
  | [], _, _, bi => bi
  | none :: ts, i, bs, bi => selectLoop ts (i + 1) bs bi
  | some t :: ts, i, bs, bi =>
    if bs < tableScore t then selectLoop ts (i + 1) (tableScore t) i
    else selectLoop ts (i + 1) bs bi

/-- `_select_best_table` from `src/parser_core.py` (output paths abstracted:
the function's value is the selected index; `none` models the
`(None, None)` return for an empty candidate list). -/
def select_best_table (tables : List (Option TableData)) : Option Nat :=
  if tables.isEmpty then none else some (selectLoop tables 0 (-1) 0)

/- ---------------------------------------------------------------------
Numeric normalization: `FinancialExcelGenerator._parse_number`
--------------------------------------------------------------------- -/

/-- Python `str.strip()`. -/
def stripWs (s : Str) : Str :=
  ((s.dropWhile isSpaceChar).reverse.dropWhile isSpaceChar).reverse

def natVal (s : Str) : Nat :=
  s.foldl (fun a c => 10 * a + (c.toNat - '0'.toNat)) 0

/-- Unsigned decimal literal `digits [ '.' digits ]` with at least one digit
overall, valued exactly as a rational (built with `mkRat` so that the value
computes by kernel reduction). -/
def parseUnsigned? (s : Str) : Option ℚ :=
  let ip := s.takeWhile Char.isDigit
  let r1 := s.dropWhile Char.isDigit
  match r1 with
  | [] => if ip = [] then none else some (mkRat (natVal ip) 1)
  | '.' :: r2 =>
    let fp := r2.takeWhile Char.isDigit
    let r3 := r2.dropWhile Char.isDigit
    if r3 = [] then
      if ip = [] && fp = [] then none
      else some (mkRat (natVal ip * 10 ^ fp.length + natVal fp) (10 ^ fp.length))
    else none
  | _ => none

/-- Python's `float(str)` builtin as used by `_parse_number`, modelled on the
finite decimal-literal fragment (leading/trailing whitespace ignored, one
optional sign): exponent notation, underscores and inf/nan are outside the
model, and the value is kept as an exact rational rather than a rounded
binary double. `none` models `ValueError`. -/
def pyFloat? (s : Str) : Option ℚ :=
  let t := stripWs s
  if t.head? = some '-' then (parseUnsigned? (t.drop 1)).map (fun q => -q)
  else if t.head? = some '+' then parseUnsigned? (t.drop 1)
  else parseUnsigned? t

/-- The bracket handling of `_parse_number`: a stripped value that starts
with `(` and ends with `)` becomes `-` followed by the inner text. -/
def parenTransform (v : Str) : Str :=
  if v.head? = some '(' ∧ v.getLast? = some ')' then '-' :: (v.drop 1).dropLast
  else v

/-- `FinancialExcelGenerator._parse_number` from `src/excel_generator.py`:
empty/whitespace-only input yields `0.0`; the stripped value, when wrapped in
`(...)`, becomes `-` followed by the inner text; commas are then removed; a
`float()` failure yields `0.0`. -/
def _parse_number (value : Str) : ℚ :=
  if value = [] ∨ stripWs value = [] then 0
  else
    match pyFloat? ((parenTransform (stripWs value)).filter (fun c => c ≠ ',')) with
    | some q => q
    | none => 0

/- ---------------------------------------------------------------------
Concrete instances used by counterexamples and witnesses
--------------------------------------------------------------------- -/

/-- A page matching only a generic heading pattern, with no "consolidated"
marker and no explicit-standalone match. -/
def pageGenericNoConsol : Str := str "unaudited financial result 30 june 2025"

/-- A page matching an explicit-standalone heading pattern. -/
def pageStandalone : Str := str "standalone financial result 30 june 2025"

/-- A page containing the "consolidated" marker and matching only the generic
heading patterns. -/
def pageConsolGeneric : Str := str "consolidated unaudited financial result 30 june 2025"

/-- A one-row demo table: flattened text "revenue", three cells. -/
def demoRow : HtmlRow := ⟨str "revenue", [str "1", str "Revenue", str "100"]⟩

/-- A demo column layout: label column 2, one period column 3. -/
def layoutStd : ColumnLayout := [(str "label", 2), (str "30.06.2025", 3)]

/-- A config whose only item carries no usable `tr_number` (0), so the row
can only be found by the fuzzy fallback. -/
def cfgFuzzy : Config :=
  ⟨[(str "standard", layoutStd)],
   [(str "britannia", ⟨none, [⟨str "revenue", some [str "revenue"], 0, none⟩]⟩)]⟩

/-- A config whose only item has a valid `tr_number` (1). -/
def cfgDirect : Config :=
  ⟨[(str "standard", layoutStd)],
   [(str "britannia", ⟨none, [⟨str "revenue", some [str "revenue"], 1, none⟩]⟩)]⟩

/-- A config whose company references a column-layout name that is absent
from `column_layouts` — a schema violation. -/
def badCfgLayout : Config :=
  ⟨[(str "standard", layoutStd)],
   [(str "britannia", ⟨some (str "nonexistent"), [⟨str "revenue", some [str "revenue"], 1, none⟩]⟩)]⟩

/-- A config whose item has neither a usable `row_index` (`tr_number` absent,
defaulting to 0) nor a `"labels"` key — a schema violation. -/
def badCfgNoLabels : Config :=
  ⟨[(str "standard", layoutStd)],
   [(str "britannia", ⟨none, [⟨str "revenue", none, 0, none⟩]⟩)]⟩

/-- A config whose item has neither a usable `row_index` nor any label (the
`"labels"` key is present but the list is empty) — a schema violation. -/
def badCfgEmptyLabels : Config :=
  ⟨[(str "standard", layoutStd)],
   [(str "britannia", ⟨none, [⟨str "revenue", some [], 0, none⟩]⟩)]⟩

/-- A small table (9 rows) whose text contains every vocabulary keyword and a
digit: score 2·9 + 14·10 + 20 − 30 = 148. -/
def tSmallManyKw : TableData :=
  ⟨9, str "revenue income expense profit loss tax total net eps earnings per share comprehensive depreciation amortisation finance cost 123"⟩

/-- A 10-row table with one keyword and no digits: score 2·10 + 10 = 30. -/
def tBigOneKw : TableData := ⟨10, str "revenue"⟩

/-- A 1-row table, no keywords, no digits: score 2 − 30 = −28. -/
def tTiny : TableData := ⟨1, str ""⟩

/-- A 5-row table, no keywords, no digits: score 10 − 30 = −20. -/
def tFiveRows : TableData := ⟨5, str ""⟩

/-- A row whose flattened text is "saleofgoods" (e.g. OCR dropped the
spaces). -/
def rowSaleNoSpaces : HtmlRow := ⟨str "saleofgoods", [str "saleofgoods"]⟩

/-- Rows used by the C2 witness: a valid `tr_number` must win even though the
labels fuzzy-match the other row. -/
def rowRevenue : HtmlRow := ⟨str "revenue total", [str "Revenue", str "10"]⟩

def rowOther : HtmlRow := ⟨str "other things", [str "Other", str "20"]⟩

/- ---------------------------------------------------------------------
Lemmas about the page loop
--------------------------------------------------------------------- -/

lemma findTargetFrom_some {pages : List Str} :
    ∀ {k i : Nat}, findTargetFrom k pages = some i →
      ∃ j p, i = k + j ∧ pages.get? j = some p ∧ pageHit p = true := by
  induction pages with
  | nil => intro k i h; simp [findTargetFrom] at h
  | cons p ps ih =>
    intro k i h
    by_cases hp : pageHit p = true
    · refine ⟨0, p, ?_, rfl, hp⟩
      simp [findTargetFrom, hp] at h
      omega
    · simp only [findTargetFrom, hp, if_false, Bool.not_eq_true] at h
      rw [if_neg (by simp [hp])] at h
      obtain ⟨j, q, hij, hq, hhit⟩ := ih h
      exact ⟨j + 1, q, by omega, by simpa using hq, hhit⟩

lemma findTargetFrom_first {pages : List Str} :
    ∀ {k i : Nat} {p : Str}, pages.get? i = some p → pageHit p = true →
      ((pages.take i).all fun q => !pageHit q) = true →
      findTargetFrom k pages = some (k + i) := by
  induction pages with
  | nil => intro k i p h; simp at h
  | cons q ps ih =>
    intro k i p hget hhit hall
    cases i with
    | zero =>
      simp at hget
      subst hget
      simp [findTargetFrom, hhit]
    | succ j =>
      simp only [List.take_succ_cons, List.all_cons, Bool.and_eq_true,
        Bool.not_eq_true'] at hall
      simp only [List.get?_cons_succ] at hget
      have := @ih (k + 1) j p hget hhit hall.2
      simp only [findTargetFrom, hall.1, if_false]
      rw [if_neg (by simp [hall.1])]
      rw [this]
      congr 1
      omega

lemma findTargetFrom_none {pages : List Str} (h : ∀ p ∈ pages, pageHit p = false) :
    ∀ k, findTargetFrom k pages = none := by
  induction pages with
  | nil => intro k; rfl
  | cons p ps ih =>
    intro k
    have hp := h p (by simp)
    simp only [findTargetFrom]
    rw [if_neg (by simp [hp])]
    exact ih (fun q hq => h q (by simp [hq])) (k + 1)

lemma pageHit_iff {p : Str} :
    pageHit p = true ↔
      matchesAny TARGET_HEADINGS_WITH_STANDALONE (lowerStr p) = true ∨
        (containsSub (str "consolidated") (lowerStr p) = false ∧
          matchesAny TARGET_HEADINGS_GENERIC (lowerStr p) = true) := by
  simp [pageHit, Bool.or_eq_true, Bool.and_eq_true, Bool.not_eq_true']

/- ---------------------------------------------------------------------
Claim theorems: C1 and C9 (page classification)
--------------------------------------------------------------------- -/

/-- C1 (counterexample): a sequence with an explicit-standalone page (index 1)
and a separate consolidated generic-only page (index 2) on which
`find_target_page` does not return the standalone page's index: an earlier
page matching only generic patterns while lacking "consolidated" (index 0) is
returned instead, so the claim as stated is false. -/
theorem C1_counterexample :
    find_target_page [pageGenericNoConsol, pageStandalone, pageConsolGeneric] = some 0 ∧
    matchesAny TARGET_HEADINGS_WITH_STANDALONE (lowerStr pageStandalone) = true ∧
    matchesAny TARGET_HEADINGS_WITH_STANDALONE (lowerStr pageConsolGeneric) = false ∧
    matchesAny TARGET_HEADINGS_GENERIC (lowerStr pageConsolGeneric) = true ∧
    containsSub (str "consolidated") (lowerStr pageConsolGeneric) = true ∧
    matchesAny TARGET_HEADINGS_WITH_STANDALONE (lowerStr pageGenericNoConsol) = false ∧
    (0 : Nat) ≠ 1 := by
  refine ⟨by decide, by decide, by decide, by decide, by decide, by decide, by decide⟩

/-- C1 (amended): `find_target_page` returns the index of the first page that
either matches an explicit-standalone pattern or matches a generic pattern
while not containing "consolidated".  Consequently (first part) a returned
page always satisfies that disjunction — so the index of a page containing
"consolidated" that matched only generic patterns is never returned — and
(second part) the standalone-matching page's index is returned whenever no
earlier page is accepted by either rule, regardless of any other content on
the standalone page itself. -/
theorem C1_standalone_priority :
    (∀ (pages : List Str) (i : Nat) (p : Str),
      find_target_page pages = some i → pages.get? i = some p →
      matchesAny TARGET_HEADINGS_WITH_STANDALONE (lowerStr p) = true ∨
        (containsSub (str "consolidated") (lowerStr p) = false ∧
          matchesAny TARGET_HEADINGS_GENERIC (lowerStr p) = true)) ∧
    (∀ (pages : List Str) (i : Nat) (p : Str),
      pages.get? i = some p →
      matchesAny TARGET_HEADINGS_WITH_STANDALONE (lowerStr p) = true →
      ((pages.take i).all fun q => !pageHit q) = true →
      find_target_page pages = some i) := by
  constructor
  · intro pages i p hfind hget
    obtain ⟨j, q, hij, hq, hhit⟩ := findTargetFrom_some hfind
    have hj : j = i := by omega
    subst hj
    rw [hget] at hq
    cases hq
    exact pageHit_iff.mp hhit
  · intro pages i p hget hstd hall
    have hhit : pageHit p = true := pageHit_iff.mpr (Or.inl hstd)
    have := @findTargetFrom_first pages 0 i p hget hhit hall
    simpa [find_target_page] using this

/-- C1 (witness): with the consolidated generic-only page first and the
explicit-standalone page second, the standalone page's index is returned. -/
theorem C1_standalone_priority_witness :
    find_target_page [pageConsolGeneric, pageStandalone] = some 1 :=
  C1_standalone_priority.2 [pageConsolGeneric, pageStandalone] 1 pageStandalone
    (by decide) (by decide) (by decide)

/-- C9: when no page matches an explicit-standalone pattern and no page both
lacks the "consolidated" marker and matches a generic pattern,
`find_target_page` returns the not-found sentinel `none` (no exception is
modelled: the function is total); empty page text is just a non-matching
page. -/
theorem C9_no_match_returns_none (pages : List Str)
    (h : ∀ p ∈ pages,
      matchesAny TARGET_HEADINGS_WITH_STANDALONE (lowerStr p) = false ∧
      (containsSub (str "consolidated") (lowerStr p) = false →
        matchesAny TARGET_HEADINGS_GENERIC (lowerStr p) = false)) :
    find_target_page pages = none := by
  apply findTargetFrom_none
  intro p hp
  obtain ⟨h1, h2⟩ := h p hp
  rw [← Bool.not_eq_true]
  intro hhit
  rcases pageHit_iff.mp hhit with hstd | ⟨hc, hgen⟩
  · rw [h1] at hstd; cases hstd
  · rw [h2 hc] at hgen; cases hgen

/-- C9 (witness): a document with an empty page and an unrelated page has no
target page. -/
theorem C9_no_match_returns_none_witness :
    find_target_page [str "", str "hello world"] = none :=
  C9_no_match_returns_none [str "", str "hello world"] (by decide)

/- ---------------------------------------------------------------------
Lemmas about the fuzzy row loop
--------------------------------------------------------------------- -/

lemma containsSub_nil (s : Str) : containsSub [] s = true := by
  cases s <;> rfl

lemma findMatchingFrom_some {rows : List HtmlRow} {labels : List Str} :
    ∀ {k i : Nat} {r : HtmlRow}, findMatchingFrom labels k rows = some (i, r) →
      ∃ j, i = k + j ∧ rows.get? j = some r ∧
        (labels.any fun l => labelMatchesRow (lowerStr r.text) l) = true ∧
        ((rows.take j).all fun q =>
          !(labels.any fun l => labelMatchesRow (lowerStr q.text) l)) = true := by
  induction rows with
  | nil => intro k i r h; simp [findMatchingFrom] at h
  | cons q qs ih =>
    intro k i r h
    by_cases hq : (labels.any fun l => labelMatchesRow (lowerStr q.text) l) = true
    · simp [findMatchingFrom, hq] at h
      exact ⟨0, by omega, by simp [h.2], by simp [← h.2, hq], by simp⟩
    · simp only [findMatchingFrom] at h
      rw [if_neg (by simp [hq])] at h
      obtain ⟨j, hij, hget, hmatch, hall⟩ := ih h
      refine ⟨j + 1, by omega, by simpa using hget, hmatch, ?_⟩
      simp only [List.take_succ_cons, List.all_cons, Bool.and_eq_true]
      exact ⟨by simp [hq], hall⟩

lemma findMatchingFrom_none {rows : List HtmlRow} {labels : List Str}
    (h : ∀ r ∈ rows, (labels.any fun l => labelMatchesRow (lowerStr r.text) l) = false) :
    ∀ k, findMatchingFrom labels k rows = none := by
  induction rows with
  | nil => intro k; rfl
  | cons q qs ih =>
    intro k
    simp only [findMatchingFrom]
    rw [if_neg (by simp [h q (by simp)])]
    exact ih (fun r hr => h r (by simp [hr])) (k + 1)

lemma findMatchingFrom_isSome {rows : List HtmlRow} {labels : List Str} {r : HtmlRow}
    (hr : r ∈ rows)
    (hm : (labels.any fun l => labelMatchesRow (lowerStr r.text) l) = true) :
    ∀ k, (findMatchingFrom labels k rows).isSome = true := by
  induction rows with
  | nil => cases hr
  | cons q qs ih =>
    intro k
    by_cases hq : (labels.any fun l => labelMatchesRow (lowerStr q.text) l) = true
    · simp [findMatchingFrom, hq]
    · rcases List.mem_cons.mp hr with hrq | hrs
      · subst hrq; exact absurd hm hq
      · simp only [findMatchingFrom]
        rw [if_neg (by simp [hq])]
        exact ih hrs (k + 1)

/- ---------------------------------------------------------------------
Claim theorems: C2, C6, C10 (row resolution)
--------------------------------------------------------------------- -/

/-- C2: whenever `tr_number` lies in `[1, row_count]`, the resolver picks
exactly the `tr_number`-th row (1-based) with the direct strategy, for every
label list and for both values of the fuzzy-matching flag — fuzzy label
matching is never consulted for such a field. -/
theorem C2_direct_strategy_precedence (rows : List HtmlRow) (trNumber : Nat)
    (labels : List Str) (useFuzzy : Bool)
    (h1 : 1 ≤ trNumber) (h2 : trNumber ≤ rows.length) :
    resolveRow rows trNumber labels useFuzzy =
      some (rows.get ⟨trNumber - 1, by omega⟩, Strategy.direct) := by
  unfold resolveRow
  rw [dif_pos ⟨by omega, h2⟩]

/-- C2 (witness): `tr_number = 2` selects the second row directly even though
fuzzy matching is enabled and the label "revenue" fuzzy-matches the first
row. -/
theorem C2_direct_strategy_precedence_witness :
    resolveRow [rowRevenue, rowOther] 2 [str "revenue"] true =
      some (rowOther, Strategy.direct) ∧
    find_matching_row [rowRevenue, rowOther] [str "revenue"] = some (0, rowRevenue) :=
  ⟨C2_direct_strategy_precedence [rowRevenue, rowOther] 2 [str "revenue"] true
      (by decide) (by decide),
   by decide⟩

/-- C6 (counterexample): the claim describes normalization as stripping
non-word characters, which would strip the spaces of "Sale of goods" and make
it match the row text "saleofgoods"; the code keeps whitespace
(`re.sub(r'[^\w\s]', '', ...)`), so `_find_matching_row` returns the
not-found sentinel on this input while the claim predicts the first row. -/
theorem C6_counterexample :
    find_matching_row [rowSaleNoSpaces] [str "Sale of goods"] = none ∧
    specLabelMatchesRow rowSaleNoSpaces.text (str "Sale of goods") = true ∧
    normalizeKeepWs (lowerStr (str "Sale of goods")) ≠ specNormalize (str "Sale of goods") := by
  refine ⟨by decide, by decide, by decide⟩

/-- C6 (amended): with normalization that lower-cases and strips characters
that are neither word characters nor whitespace (whitespace is preserved),
fuzzy row resolution returns the first row, scanning in document order, whose
normalized text contains a normalized label as a substring or starts with the
first 15 characters of a normalized label; if no row satisfies any label the
not-found sentinel is returned. -/
theorem C6_fuzzy_resolution_characterization (rows : List HtmlRow) (labels : List Str) :
    (find_matching_row rows labels = none ↔
      ∀ r ∈ rows, (labels.any fun l => labelMatchesRow (lowerStr r.text) l) = false) ∧
    (∀ (i : Nat) (r : HtmlRow), find_matching_row rows labels = some (i, r) →
      rows.get? i = some r ∧
      (labels.any fun l => labelMatchesRow (lowerStr r.text) l) = true ∧
      ((rows.take i).all fun q =>
        !(labels.any fun l => labelMatchesRow (lowerStr q.text) l)) = true) := by
  constructor
  · constructor
    · intro hnone r hr
      by_contra hm
      have := findMatchingFrom_isSome hr (by simpa using hm) 0
      rw [find_matching_row] at hnone
      rw [hnone] at this
      cases this
    · intro h
      exact findMatchingFrom_none h 0
  · intro i r h
    obtain ⟨j, hij, hget, hmatch, hall⟩ := findMatchingFrom_some h
    have hj : j = i := by omega
    subst hj
    exact ⟨hget, hmatch, hall⟩

/-- C6 (witness): the label "other" skips the first row and fuzzy-matches the
second. -/
theorem C6_fuzzy_resolution_characterization_witness :
    [rowRevenue, rowOther].get? 1 = some rowOther ∧
    ([str "other"].any fun l => labelMatchesRow (lowerStr rowOther.text) l) = true ∧
    (([rowRevenue, rowOther].take 1).all fun q =>
      !([str "other"].any fun l => labelMatchesRow (lowerStr q.text) l)) = true :=
  (C6_fuzzy_resolution_characterization [rowRevenue, rowOther] [str "other"]).2
    1 rowOther (by decide)

/-- C10: a label whose normalization has fewer than 15 characters degenerates
the prefix test to the whole (shortened) normalized label; in the extreme, a
label normalizing to the empty string (e.g. made of punctuation only) makes
fuzzy resolution return the first row (index 0) of every nonempty row list —
the empty string is a substring and a prefix of every row text. -/
theorem C10_degenerate_label :
    (∀ l : Str, (normalizeKeepWs (lowerStr l)).length < 15 →
      (normalizeKeepWs (lowerStr l)).take 15 = normalizeKeepWs (lowerStr l)) ∧
    (∀ (r : HtmlRow) (rs : List HtmlRow) (labels : List Str) (l : Str),
      l ∈ labels → normalizeKeepWs (lowerStr l) = [] →
      find_matching_row (r :: rs) labels = some (0, r)) := by
  constructor
  · intro l h
    exact List.take_of_length_le (by omega)
  · intro r rs labels l hmem hnorm
    have hmatch : labelMatchesRow (lowerStr r.text) l = true := by
      simp only [labelMatchesRow, hnorm, containsSub_nil, Bool.true_or]
    have hany : (labels.any fun l' => labelMatchesRow (lowerStr r.text) l') = true :=
      List.any_eq_true.mpr ⟨l, hmem, hmatch⟩
    simp [find_matching_row, findMatchingFrom, hany]

/-- C10 (witness): the punctuation-only label "!!!" resolves to the first row
even though its text shares nothing with the label. -/
theorem C10_degenerate_label_witness :
    find_matching_row [rowRevenue, rowOther] [str "!!!"] = some (0, rowRevenue) :=
  C10_degenerate_label.2 rowRevenue [rowOther] [str "!!!"] (str "!!!")
    (by decide) (by decide)

/- ---------------------------------------------------------------------
Lemmas about the item loop and `extraction_method`
--------------------------------------------------------------------- -/

lemma processItem_method {cfg : Config} {companyCfg : CompanyConfig}
    {rows : List HtmlRow} {useFuzzy : Bool} {st st' : LoopState} {it : ItemConfig}
    (h : processItem cfg companyCfg rows useFuzzy st it = Except.ok st')
    (h1 : st.method = str "tr_number" ∨ st.method = str "mixed")
    (h2 : st.method = str "mixed" ↔ 0 < st.fuzzy_count) :
    (st'.method = str "tr_number" ∨ st'.method = str "mixed") ∧
    (st'.method = str "mixed" ↔ 0 < st'.fuzzy_count) := by
  unfold processItem at h
  split at h
  · cases h
  · split at h
    · cases h
    · split at h
      · cases h
        exact ⟨h1, h2⟩
      · rename_i row strat heq
        cases strat with
        | direct =>
          simp only [] at h
          split at h
          · cases h
          · split at h
            · cases h
            · cases h
              exact ⟨by simpa using h1, by simpa using h2⟩
        | fuzzy =>
          simp only [] at h
          split at h
          · cases h
          · split at h
            · cases h
            · cases h
              exact ⟨Or.inr rfl, by simp⟩

lemma processItems_method {cfg : Config} {companyCfg : CompanyConfig}
    {rows : List HtmlRow} {useFuzzy : Bool} :
    ∀ {items : List ItemConfig} {st st' : LoopState},
      processItems cfg companyCfg rows useFuzzy st items = Except.ok st' →
      (st.method = str "tr_number" ∨ st.method = str "mixed") →
      (st.method = str "mixed" ↔ 0 < st.fuzzy_count) →
      (st'.method = str "tr_number" ∨ st'.method = str "mixed") ∧
      (st'.method = str "mixed" ↔ 0 < st'.fuzzy_count) := by
  intro items
  induction items with
  | nil =>
    intro st st' h h1 h2
    cases h
    exact ⟨h1, h2⟩
  | cons it rest ih =>
    intro st st' h h1 h2
    rw [processItems] at h
    cases hstep : processItem cfg companyCfg rows useFuzzy st it with
    | error e => rw [hstep] at h; cases h
    | ok stm =>
      rw [hstep] at h
      obtain ⟨ha, hb⟩ := processItem_method hstep h1 h2
      exact ih h ha hb

/- ---------------------------------------------------------------------
Claim theorems: C3 and C7 (record assembly and configuration)
--------------------------------------------------------------------- -/

/-- C3 (counterexample): a run in which the single resolved field used the
fuzzy strategy yields `extraction_method = "mixed"` (the claim says "fuzzy"),
and a run in which every resolved field used the direct strategy yields
`"tr_number"` (the claim says "direct") — so the claimed value set
{direct, fuzzy, mixed} is wrong on both counts. -/
theorem C3_counterexample :
    parse_html_table_to_json (some [demoRow]) (str "BRITANNIA") cfgFuzzy true =
      Except.ok (some ⟨str "BRITANNIA",
        [⟨str "Revenue", str "revenue", [(str "30.06.2025", str "100")]⟩],
        str "mixed"⟩) ∧
    parse_html_table_to_json (some [demoRow]) (str "BRITANNIA") cfgDirect true =
      Except.ok (some ⟨str "BRITANNIA",
        [⟨str "Revenue", str "revenue", [(str "30.06.2025", str "100")]⟩],
        str "tr_number"⟩) ∧
    str "mixed" ≠ str "fuzzy" ∧
    str "tr_number" ≠ str "direct" := by
  refine ⟨by decide, by decide, by decide, by decide⟩

/-- C3 (amended): the `extraction_method` of a returned record is always
either `"tr_number"` or `"mixed"` (never `"direct"` or `"fuzzy"`): it starts
as `"tr_number"` and becomes — and stays — `"mixed"` exactly when at least one
field was resolved by the fuzzy fallback, even when every resolved field was
fuzzy-resolved. -/
theorem C3_extraction_method_values :
    (∀ (htmlTable : Option (List HtmlRow)) (companyName : Str) (config : Config)
       (useFuzzy : Bool) (rec : Record),
      parse_html_table_to_json htmlTable companyName config useFuzzy =
        Except.ok (some rec) →
      rec.extraction_method = str "tr_number" ∨ rec.extraction_method = str "mixed") ∧
    (∀ (cfg : Config) (companyCfg : CompanyConfig) (rows : List HtmlRow)
       (useFuzzy : Bool) (items : List ItemConfig) (st' : LoopState),
      processItems cfg companyCfg rows useFuzzy initState items = Except.ok st' →
      (st'.method = str "mixed" ↔ 0 < st'.fuzzy_count)) := by
  constructor
  · intro htmlTable companyName config useFuzzy rec h
    unfold parse_html_table_to_json at h
    split at h
    · cases h
    · split at h
      · cases h
      · split at h
        · cases h
        · split at h
          · cases h
          · cases hloop : processItems config _ _ useFuzzy initState _ with
            | error e => rw [hloop] at h; cases h
            | ok st =>
              rw [hloop] at h
              cases h
              exact (processItems_method hloop (Or.inl rfl) (by decide)).1
  · intro cfg companyCfg rows useFuzzy items st' h
    exact (processItems_method h (Or.inl rfl) (by decide)).2

/-- C3 (witness): the all-fuzzy demo run returns a record whose
`extraction_method` is in the actual value set. -/
theorem C3_extraction_method_values_witness :
    (Record.mk (str "BRITANNIA")
      [⟨str "Revenue", str "revenue", [(str "30.06.2025", str "100")]⟩]
      (str "mixed")).extraction_method = str "tr_number" ∨
    (Record.mk (str "BRITANNIA")
      [⟨str "Revenue", str "revenue", [(str "30.06.2025", str "100")]⟩]
      (str "mixed")).extraction_method = str "mixed" :=
  C3_extraction_method_values.1 (some [demoRow]) (str "BRITANNIA") cfgFuzzy true
    (Record.mk (str "BRITANNIA")
      [⟨str "Revenue", str "revenue", [(str "30.06.2025", str "100")]⟩]
      (str "mixed"))
    (by decide)

/-- C7 (counterexample): both schema violations pass `load_config` untouched
(no load-time failure) and surface only later: an absent referenced layout
raises during `parse_html_table_to_json` (modelled `Except.error`), a missing
`labels` key raises during per-field resolution, and an empty label list with
no row index degrades silently to a record with no extracted fields. -/
theorem C7_counterexample :
    load_config badCfgLayout = Except.ok badCfgLayout ∧
    parse_html_table_to_json (some [demoRow]) (str "BRITANNIA") badCfgLayout true =
      Except.error () ∧
    load_config badCfgNoLabels = Except.ok badCfgNoLabels ∧
    parse_html_table_to_json (some [demoRow]) (str "BRITANNIA") badCfgNoLabels true =
      Except.error () ∧
    load_config badCfgEmptyLabels = Except.ok badCfgEmptyLabels ∧
    parse_html_table_to_json (some [demoRow]) (str "BRITANNIA") badCfgEmptyLabels true =
      Except.ok (some ⟨str "BRITANNIA", [], str "tr_number"⟩) := by
  refine ⟨rfl, by decide, rfl, by decide, rfl, by decide⟩

/-- C7 (amended): configuration loading performs no schema validation —
`load_config` returns every parsed configuration unchanged and never fails —
so the violations the claim names are not caught at load time: a company
referencing an absent column-layout name surfaces as an exception during
`parse_html_table_to_json`, and a FieldSpec with neither row_index nor labels
either raises during per-field resolution (missing `labels` key) or silently
yields a record with no extracted fields (empty label list). -/
theorem C7_no_load_time_validation :
    (∀ cfg : Config, load_config cfg = Except.ok cfg) ∧
    parse_html_table_to_json (some [demoRow]) (str "BRITANNIA") badCfgLayout true =
      Except.error () ∧
    parse_html_table_to_json (some [demoRow]) (str "BRITANNIA") badCfgNoLabels true =
      Except.error () ∧
    parse_html_table_to_json (some [demoRow]) (str "BRITANNIA") badCfgEmptyLabels true =
      Except.ok (some ⟨str "BRITANNIA", [], str "tr_number"⟩) := by
  refine ⟨fun _ => rfl, by decide, by decide, by decide⟩

/- ---------------------------------------------------------------------
Lemmas about table scoring and the selection loop
--------------------------------------------------------------------- -/

lemma foldl_keyword_count (tl : Str) :
    ∀ (l : List Str) (s : Int),
      l.foldl (fun acc kw => if containsSub kw tl then acc + 10 else acc) s =
        s + 10 * (l.countP fun kw => containsSub kw tl) := by
  intro l
  induction l with
  | nil => intro s; simp
  | cons k ks ih =>
    intro s
    simp only [List.foldl_cons, List.countP_cons]
    by_cases h : containsSub k tl = true
    · rw [if_pos h, ih]
      simp only [h, if_pos]
      push_cast
      ring
    · rw [if_neg h, ih]
      simp only [h]
      norm_num

lemma tableScore_eq (t : TableData) :
    tableScore t = 2 * ((min t.nrows 50 : Nat) : Int) + 10 * (kwCount t : Int) +
      (if hasNumeric t = true then 20 else 0) -
      (if t.nrows < 10 then 30 else 0) := by
  simp only [tableScore, kwCount, hasNumeric]
  rw [foldl_keyword_count]
  by_cases hn : (lowerStr t.text).any Char.isDigit = true <;>
    by_cases hr : t.nrows < 10 <;>
      simp [hn, hr] <;> omega

lemma tableScore_ge_30 {t : TableData} (h10 : 10 ≤ t.nrows) (hkw : 1 ≤ kwCount t) :
    (30 : Int) ≤ tableScore t := by
  rw [tableScore_eq]
  have h50 : 10 ≤ min t.nrows 50 := le_min h10 (by norm_num)
  have hr : ¬ t.nrows < 10 := by omega
  split_ifs <;> push_cast <;> omega

lemma tableScore_le_8 {t : TableData} (h : t.nrows < 10) (hkw : kwCount t = 0) :
    tableScore t ≤ 8 := by
  rw [tableScore_eq]
  have hm : min t.nrows 50 ≤ 9 := le_trans (min_le_left _ _) (by omega)
  split_ifs <;> push_cast [hkw] <;> omega

lemma selectLoop_stay {ts : List (Option TableData)} :
    ∀ {i : Nat} {bs : Int} {bi : Nat},
      (∀ j t, ts.get? j = some (some t) → tableScore t ≤ bs) →
      selectLoop ts i bs bi = bi := by
  induction ts with
  | nil => intros; rfl
  | cons o rest ih =>
    intro i bs bi h
    cases o with
    | none => exact ih (fun j t hj => h (j + 1) t (by simpa using hj))
    | some t =>
      have ht : tableScore t ≤ bs := h 0 t rfl
      simp only [selectLoop]
      rw [if_neg (by omega)]
      exact ih (fun j u hj => h (j + 1) u (by simpa using hj))

lemma selectLoop_max {ts : List (Option TableData)} :
    ∀ {i : Nat} {bs : Int} {bi : Nat},
      (∃ j t, ts.get? j = some (some t) ∧ bs < tableScore t) →
      ∃ j t, ts.get? j = some (some t) ∧ selectLoop ts i bs bi = i + j ∧
        bs < tableScore t ∧
        (∀ j' u, ts.get? j' = some (some u) → tableScore u ≤ tableScore t) ∧
        (∀ j' u, j' < j → ts.get? j' = some (some u) → tableScore u < tableScore t) := by
  induction ts with
  | nil =>
    intro i bs bi hex
    obtain ⟨j, t, hj, _⟩ := hex
    simp at hj
  | cons o rest ih =>
    intro i bs bi hex
    cases o with
    | none =>
      obtain ⟨j, t, hj, hlt⟩ := hex
      cases j with
      | zero => simp at hj
      | succ j0 =>
        obtain ⟨j1, t1, hj1, heq, hbs, hmax, hfirst⟩ :=
          ih ⟨j0, t, by simpa using hj, hlt⟩
        refine ⟨j1 + 1, t1, by simpa using hj1, ?_, hbs, ?_, ?_⟩
        · show selectLoop rest (i + 1) bs bi = i + (j1 + 1)
          rw [heq]; omega
        · intro j' u hj'
          cases j' with
          | zero => simp at hj'
          | succ j'0 => exact hmax j'0 u (by simpa using hj')
        · intro j' u hj'lt hj'
          cases j' with
          | zero => simp at hj'
          | succ j'0 => exact hfirst j'0 u (by omega) (by simpa using hj')
    | some t =>
      by_cases hbt : bs < tableScore t
      · by_cases hrest : ∃ j0 u, rest.get? j0 = some (some u) ∧ tableScore t < tableScore u
        · obtain ⟨j1, t1, hj1, heq, hbs1, hmax, hfirst⟩ := ih hrest
          refine ⟨j1 + 1, t1, by simpa using hj1, ?_, by omega, ?_, ?_⟩
          · show (if bs < tableScore t then selectLoop rest (i + 1) (tableScore t) i
                  else selectLoop rest (i + 1) bs bi) = i + (j1 + 1)
            rw [if_pos hbt, heq]; omega
          · intro j' u hj'
            cases j' with
            | zero =>
              have : t = u := by simpa using hj'
              subst this
              omega
            | succ j'0 => exact hmax j'0 u (by simpa using hj')
          · intro j' u hj'lt hj'
            cases j' with
            | zero =>
              have : t = u := by simpa using hj'
              subst this
              exact hbs1
            | succ j'0 => exact hfirst j'0 u (by omega) (by simpa using hj')
        · push_neg at hrest
          have hstay : selectLoop rest (i + 1) (tableScore t) i = i :=
            selectLoop_stay (fun j0 u hj0 => hrest j0 u hj0)
          refine ⟨0, t, rfl, ?_, hbt, ?_, ?_⟩
          · show (if bs < tableScore t then selectLoop rest (i + 1) (tableScore t) i
                  else selectLoop rest (i + 1) bs bi) = i + 0
            rw [if_pos hbt, hstay]
            omega
          · intro j' u hj'
            cases j' with
            | zero =>
              have : t = u := by simpa using hj'
              subst this
              exact le_refl _
            | succ j'0 => exact hrest j'0 u (by simpa using hj')
          · intro j' u hj'lt _
            omega
      · obtain ⟨j, u, hj, hlt⟩ := hex
        cases j with
        | zero =>
          have : t = u := by simpa using hj
          subst this
          exact absurd hlt hbt
        | succ j0 =>
          obtain ⟨j1, t1, hj1, heq, hbs1, hmax, hfirst⟩ :=
            ih ⟨j0, u, by simpa using hj, hlt⟩
          have hts : tableScore t ≤ bs := by omega
          refine ⟨j1 + 1, t1, by simpa using hj1, ?_, hbs1, ?_, ?_⟩
          · show (if bs < tableScore t then selectLoop rest (i + 1) (tableScore t) i
                  else selectLoop rest (i + 1) bs bi) = i + (j1 + 1)
            rw [if_neg hbt, heq]; omega
          · intro j' u' hj'
            cases j' with
            | zero =>
              have : t = u' := by simpa using hj'
              subst this
              omega
            | succ j'0 => exact hmax j'0 u' (by simpa using hj')
          · intro j' u' hj'lt hj'
            cases j' with
            | zero =>
              have : t = u' := by simpa using hj'
              subst this
              omega
            | succ j'0 => exact hfirst j'0 u' (by omega) (by simpa using hj')

lemma isEmpty_false_of_get? {ts : List (Option TableData)} {j : Nat} {x : Option TableData}
    (h : ts.get? j = some x) : ts.isEmpty = false := by
  cases ts with
  | nil => simp at h
  | cons a l => rfl

/- ---------------------------------------------------------------------
Claim theorems: C4 and C5 (table selection)
--------------------------------------------------------------------- -/

/-- C4 (counterexample): a 9-row candidate containing every vocabulary
keyword and a digit scores 148 and beats a 10-row candidate with one keyword
(score 30), so the scorer selects a candidate with fewer than 10 rows even
though a ≥10-row candidate with a financial keyword exists — the claim as
stated is false. -/
theorem C4_counterexample :
    select_best_table [some tSmallManyKw, some tBigOneKw] = some 0 ∧
    tSmallManyKw.nrows < 10 ∧
    10 ≤ tBigOneKw.nrows ∧
    1 ≤ kwCount tBigOneKw := by
  refine ⟨by decide, by decide, by decide, by decide⟩

/-- C4 (amended): whenever some loadable candidate has at least 10 rows and
at least one financial keyword, the selected candidate is loadable, scores at
least 30, and is never a candidate that both has fewer than 10 rows and
contains no financial keyword (such a candidate scores at most 8).  A sub-10
row candidate with enough keywords can still win, as the counterexample
shows. -/
theorem C4_small_keywordless_never_selected (tables : List (Option TableData))
    (j : Nat) (t : TableData) (hj : tables.get? j = some (some t))
    (h10 : 10 ≤ t.nrows) (hkw : 1 ≤ kwCount t)
    (k : Nat) (hsel : select_best_table tables = some k) :
    ∃ u, tables.get? k = some (some u) ∧ (30 : Int) ≤ tableScore u ∧
      ¬(u.nrows < 10 ∧ kwCount u = 0) := by
  have hscore : (30 : Int) ≤ tableScore t := tableScore_ge_30 h10 hkw
  obtain ⟨j1, t1, hj1, heq, hbs, hmax, hfirst⟩ :=
    @selectLoop_max tables 0 (-1) 0 ⟨j, t, hj, by omega⟩
  rw [select_best_table, if_neg (by simp [isEmpty_false_of_get? hj])] at hsel
  rw [heq] at hsel
  have hk := Option.some.inj hsel
  obtain rfl : k = j1 := by omega
  refine ⟨t1, hj1, ?_, ?_⟩
  · exact le_trans hscore (hmax j t hj)
  · rintro ⟨hsm, hz⟩
    have h8 := tableScore_le_8 hsm hz
    have hge := hmax j t hj
    omega

/-- C4 (witness): with a keywordless 5-row candidate first and the 10-row
one-keyword candidate second, the selected candidate (index 1) is the big
one. -/
theorem C4_small_keywordless_never_selected_witness :
    ∃ u, [some tFiveRows, some tBigOneKw].get? 1 = some (some u) ∧
      (30 : Int) ≤ tableScore u ∧ ¬(u.nrows < 10 ∧ kwCount u = 0) :=
  C4_small_keywordless_never_selected [some tFiveRows, some tBigOneKw] 1 tBigOneKw
    (by decide) (by decide) (by decide) 1 (by decide)

/-- C5 (counterexample): with two loadable candidates scoring −28 (1 row) and
−20 (5 rows), neither beats the initial best score of −1, so the fallback
index 0 is returned although the candidate with the strictly greatest score
is at index 1 — the claimed argmax selection rule is false. -/
theorem C5_counterexample :
    select_best_table [some tTiny, some tFiveRows] = some 0 ∧
    tableScore tTiny < tableScore tFiveRows := by
  refine ⟨by decide, by decide⟩

/-- C5 (amended): each loadable candidate's score is exactly
2·min(row_count, 50) + 10·(distinct keywords found) + (20 if a numeric token
occurs) − (30 if fewer than 10 rows); a candidate that fails to load is
skipped without aborting the scan; and — provided some loadable candidate
scores above the initial best score of −1 — the selected index is a loadable
candidate whose score is greatest, earliest in case of ties.  When every
loadable candidate scores ≤ −1 the loop's fallback index 0 is returned
instead (see the counterexample). -/
theorem C5_score_formula_and_selection :
    (∀ t : TableData, tableScore t =
      2 * ((min t.nrows 50 : Nat) : Int) + 10 * (kwCount t : Int) +
        (if hasNumeric t = true then 20 else 0) -
        (if t.nrows < 10 then 30 else 0)) ∧
    (∀ (ts : List (Option TableData)) (i : Nat) (bs : Int) (bi : Nat),
      selectLoop (none :: ts) i bs bi = selectLoop ts (i + 1) bs bi) ∧
    (∀ (tables : List (Option TableData)) (j : Nat) (t : TableData),
      tables.get? j = some (some t) → (-1 : Int) < tableScore t →
      ∃ k u, select_best_table tables = some k ∧
        tables.get? k = some (some u) ∧
        (∀ j' u', tables.get? j' = some (some u') → tableScore u' ≤ tableScore u) ∧
        (∀ j' u', j' < k → tables.get? j' = some (some u') →
          tableScore u' < tableScore u)) := by
  refine ⟨tableScore_eq, fun ts i bs bi => rfl, ?_⟩
  intro tables j t hj hlt
  obtain ⟨j1, t1, hj1, heq, hbs, hmax, hfirst⟩ :=
    @selectLoop_max tables 0 (-1) 0 ⟨j, t, hj, hlt⟩
  refine ⟨j1, t1, ?_, hj1, hmax, ?_⟩
  · rw [select_best_table, if_neg (by simp [isEmpty_false_of_get? hj]), heq]
    norm_num
  · intro j' u' hj'lt hj'
    exact hfirst j' u' (by omega) hj'

/-- C5 (witness): with scores −28 and 30, the 10-row one-keyword candidate at
index 1 is the strict maximum and is selected. -/
theorem C5_score_formula_and_selection_witness :
    ∃ k u, select_best_table [some tTiny, some tBigOneKw] = some k ∧
      [some tTiny, some tBigOneKw].get? k = some (some u) ∧
      (∀ j' u', [some tTiny, some tBigOneKw].get? j' = some (some u') →
        tableScore u' ≤ tableScore u) ∧
      (∀ j' u', j' < k → [some tTiny, some tBigOneKw].get? j' = some (some u') →
        tableScore u' < tableScore u) :=
  C5_score_formula_and_selection.2.2 [some tTiny, some tBigOneKw] 1 tBigOneKw
    (by decide) (by decide)

/- ---------------------------------------------------------------------
Lemmas about `_parse_number`
--------------------------------------------------------------------- -/

lemma dropWhile_all {p : Char → Bool} :
    ∀ {s : Str}, (∀ c ∈ s, p c = true) → s.dropWhile p = []
  | [], _ => rfl
  | c :: t, h => by
    rw [List.dropWhile_cons, if_pos (h c (by simp))]
    exact dropWhile_all (fun d hd => h d (by simp [hd]))

lemma dropWhile_none {p : Char → Bool} :
    ∀ {s : Str}, (∀ c ∈ s, p c = false) → s.dropWhile p = s
  | [], _ => rfl
  | c :: t, h => by
    rw [List.dropWhile_cons, if_neg (by simp [h c (by simp)])]

lemma stripWs_eq_nil {s : Str} (h : ∀ c ∈ s, isSpaceChar c = true) :
    stripWs s = [] := by
  unfold stripWs
  rw [dropWhile_all h]
  rfl

lemma stripWs_of_no_space {s : Str} (h : ∀ c ∈ s, isSpaceChar c = false) :
    stripWs s = s := by
  unfold stripWs
  rw [dropWhile_none h, dropWhile_none (fun c hc => h c (List.mem_reverse.mp hc))]
  exact List.reverse_reverse s

lemma stripWs_sandwich {a b : Char} (s : Str) (ha : isSpaceChar a = false)
    (hb : isSpaceChar b = false) : stripWs (a :: s ++ [b]) = a :: s ++ [b] := by
  show stripWs (a :: (s ++ [b])) = a :: (s ++ [b])
  unfold stripWs
  rw [show List.dropWhile isSpaceChar (a :: (s ++ [b])) = a :: (s ++ [b]) from by
        rw [List.dropWhile_cons, if_neg (by simp [ha])]]
  rw [show (a :: (s ++ [b])).reverse = b :: (s.reverse ++ [a]) by simp]
  rw [show List.dropWhile isSpaceChar (b :: (s.reverse ++ [a])) = b :: (s.reverse ++ [a]) from by
        rw [List.dropWhile_cons, if_neg (by simp [hb])]]
  simp

lemma getLast?_append_singleton : ∀ (l : Str) (b : Char), (l ++ [b]).getLast? = some b
  | [], _ => rfl
  | [_], _ => rfl
  | c :: d :: t, b => by
    rw [List.cons_append, List.cons_append, List.getLast?_cons_cons]
    exact getLast?_append_singleton (d :: t) b

lemma isDigit_aux {c : Char} (h : Char.isDigit c = true) :
    isSpaceChar c = false ∧ c ≠ '-' ∧ c ≠ '+' := by
  refine ⟨?_, ?_, ?_⟩
  · by_contra hs
    rw [Bool.not_eq_false] at hs
    simp only [isSpaceChar, Bool.or_eq_true, decide_eq_true_eq] at hs
    rcases hs with ((((h1 | h1) | h1) | h1) | h1) | h1 <;> subst h1 <;>
      exact absurd h (by decide)
  · intro h1; subst h1; exact absurd h (by decide)
  · intro h1; subst h1; exact absurd h (by decide)

lemma no_space_of_digit_dot {t : Str}
    (h : ∀ c ∈ t, Char.isDigit c = true ∨ c = '.') :
    ∀ c ∈ t, isSpaceChar c = false := by
  intro c hc
  rcases h c hc with hd | hdot
  · exact (isDigit_aux hd).1
  · subst hdot; decide

lemma pyFloat?_digit_dot {t : Str}
    (h : ∀ c ∈ t, Char.isDigit c = true ∨ c = '.') :
    pyFloat? t = parseUnsigned? t := by
  simp only [pyFloat?]
  rw [stripWs_of_no_space (no_space_of_digit_dot h)]
  cases t with
  | nil => rfl
  | cons c r =>
    have hne : c ≠ '-' ∧ c ≠ '+' := by
      rcases h c (by simp) with hd | hdot
      · exact ⟨(isDigit_aux hd).2.1, (isDigit_aux hd).2.2⟩
      · subst hdot; exact ⟨by decide, by decide⟩
    rw [if_neg (by simp [hne.1]), if_neg (by simp [hne.2])]

lemma pyFloat?_neg_digit_dot {t : Str}
    (h : ∀ c ∈ t, Char.isDigit c = true ∨ c = '.') :
    pyFloat? ('-' :: t) = (parseUnsigned? t).map (fun q => -q) := by
  have hall : ∀ c ∈ '-' :: t, isSpaceChar c = false := by
    intro c hc
    rcases List.mem_cons.mp hc with rfl | hct
    · decide
    · exact no_space_of_digit_dot h c hct
  simp only [pyFloat?]
  rw [stripWs_of_no_space hall]
  rw [if_pos (show ('-' :: t).head? = some '-' from rfl)]
  simp

/- ---------------------------------------------------------------------
Claim theorem: C8 (numeric normalization)
--------------------------------------------------------------------- -/

/-- C8: `_parse_number` yields 0 (the value rendered as "no data" downstream)
on empty and whitespace-only input; on a plain numeral it strips thousands
commas before parsing; wrapping a comma/digit/dot numeral in parentheses
negates its value; and an input that still fails numeric parsing after
normalization yields 0 rather than an error (the function is total).  Numeric
values are modelled as exact rationals. -/
theorem C8_parse_number :
    (_parse_number [] = 0) ∧
    (∀ s : Str, (∀ c ∈ s, isSpaceChar c = true) → _parse_number s = 0) ∧
    (∀ (s : Str) (q : ℚ), stripWs s = s → s ≠ [] →
      ¬(s.head? = some '(' ∧ s.getLast? = some ')') →
      pyFloat? (s.filter fun c => c ≠ ',') = some q →
      _parse_number s = q) ∧
    (∀ (s : Str) (q : ℚ), (∀ c ∈ s, Char.isDigit c = true ∨ c = '.' ∨ c = ',') →
      pyFloat? (s.filter fun c => c ≠ ',') = some q →
      _parse_number ('(' :: s ++ [')']) = -q) ∧
    (∀ s : Str, s ≠ [] → stripWs s ≠ [] →
      pyFloat? ((parenTransform (stripWs s)).filter fun c => c ≠ ',') = none →
      _parse_number s = 0) := by
  refine ⟨rfl, ?_, ?_, ?_, ?_⟩
  · intro s h
    unfold _parse_number
    rw [if_pos (Or.inr (stripWs_eq_nil h))]
  · intro s q hstrip hne hparen hfloat
    unfold _parse_number
    rw [if_neg (by simp [not_or, hne, hstrip])]
    rw [hstrip]
    unfold parenTransform
    rw [if_neg hparen]
    rw [hfloat]
  · intro s q hchars hfloat
    have hs1 : stripWs ('(' :: s ++ [')']) = '(' :: s ++ [')'] :=
      stripWs_sandwich s (by decide) (by decide)
    have hlast : ('(' :: s ++ [')']).getLast? = some ')' :=
      getLast?_append_singleton ('(' :: s) ')'
    unfold _parse_number
    rw [if_neg (by rw [hs1]; simp)]
    rw [hs1]
    unfold parenTransform
    rw [if_pos ⟨rfl, hlast⟩]
    have hdrop : (('(' :: s ++ [')']).drop 1).dropLast = s := by
      simp [List.dropLast_concat]
    rw [hdrop]
    rw [List.filter_cons_of_pos (by decide)]
    have hft : ∀ c ∈ (s.filter fun c => decide (c ≠ ',')),
        Char.isDigit c = true ∨ c = '.' := by
      intro c hc
      rw [List.mem_filter] at hc
      rcases hchars c hc.1 with h1 | h1 | h1
      · exact Or.inl h1
      · exact Or.inr h1
      · exfalso
        have := hc.2
        subst h1
        simp at this
    rw [pyFloat?_neg_digit_dot hft, ← pyFloat?_digit_dot hft]
    rw [hfloat]
    rfl
  · intro s hne hsne hnone
    unfold _parse_number
    rw [if_neg (by simp [not_or, hne, hsne])]
    rw [hnone]

/-- C8 (witness): whitespace yields 0; "1,234.5" parses to 1234.5 with the
comma stripped; "(123.45)" parses to −123.45; the unparseable "7up" yields
0. -/
theorem C8_parse_number_witness :
    _parse_number (str "  ") = 0 ∧
    _parse_number (str "1,234.5") = mkRat 12345 10 ∧
    _parse_number ('(' :: str "123.45" ++ [')']) = -(mkRat 12345 100) ∧
    _parse_number (str "7up") = 0 :=
  ⟨C8_parse_number.2.1 (str "  ") (by decide),
   C8_parse_number.2.2.1 (str "1,234.5") (mkRat 12345 10) (by decide) (by decide)
     (by decide) (by decide),
   C8_parse_number.2.2.2.1 (str "123.45") (mkRat 12345 100) (by decide) (by decide),
   C8_parse_number.2.2.2.2 (str "7up") (by decide) (by decide) (by decide)⟩

end FinConv
